import Mathlib

/-!
Verification of the hospital-matching subsystem of the `loop-ai-hospitals`
repository (backend `src/routes/chatRoutes.js` and the Qdrant query helpers).

The JavaScript code is shallowly embedded: strings are `List Char` / `String`
(ASCII model of JS `toLowerCase`, `\s`, `\w`), numbers are exact rationals `ℚ`,
and the network collaborators (embedding provider, vector index) are oracles
passed as function arguments returning `Except` values; a thrown JS exception
is modelled by `Except.error`.
-/

namespace LoopAI

/-- ASCII whitespace, the model of the JS regex class `\s`. -/
def isWs (c : Char) : Bool :=
  c == ' ' || c == '\t' || c == '\n' || c == '\r' || c == '\x0b' || c == '\x0c'

/-- JS line terminators: the characters the JS regex `.` does *not* match
(without the `s` flag): LF, CR, U+2028, U+2029. -/
def isLineTerm (c : Char) : Bool :=
  c == '\n' || c == '\r' || c == '\u2028' || c == '\u2029'

/-- No line terminator occurs in `l`, so JS `.*` can consume all of `l`. -/
def noNL (l : List Char) : Bool := l.all (fun c => !isLineTerm c)

/-- Word characters, the model of the JS regex class `\w` (`[A-Za-z0-9_]`). -/
def isWordChar (c : Char) : Bool :=
  (decide ('a' ≤ c) && decide (c ≤ 'z')) || (decide ('A' ≤ c) && decide (c ≤ 'Z')) ||
    (decide ('0' ≤ c) && decide (c ≤ '9')) || c == '_'

/-- Uppercase/lowercase ASCII pairs, used to model `String.prototype.toLowerCase`. -/
def ucLcPairs : List (Char × Char) :=
  [('A','a'), ('B','b'), ('C','c'), ('D','d'), ('E','e'), ('F','f'), ('G','g'),
   ('H','h'), ('I','i'), ('J','j'), ('K','k'), ('L','l'), ('M','m'), ('N','n'),
   ('O','o'), ('P','p'), ('Q','q'), ('R','r'), ('S','s'), ('T','t'), ('U','u'),
   ('V','v'), ('W','w'), ('X','x'), ('Y','y'), ('Z','z')]

/-- ASCII model of lowercasing one character. -/
def toLowerChar (c : Char) : Char :=
  match (ucLcPairs.find? (fun p => p.1 == c)) with
  | some p => p.2
  | none => c

/-- Model of JS `toLowerCase` on a character list. -/
def lowerChars (l : List Char) : List Char := l.map toLowerChar

/-- `startsList pat l` is true when `pat` is an initial segment of `l`. -/
def startsList : List Char → List Char → Bool
  | [], _ => true
  | _ :: _, [] => false
  | a :: as, b :: bs => a == b && startsList as bs

/-- Model of JS `hay.includes(needle)`: `needle` occurs contiguously in `hay`. -/
def containsList : List Char → List Char → Bool
  | [], needle => startsList needle []
  | c :: rest, needle => startsList needle (c :: rest) || containsList rest needle

/-- Drop leading characters satisfying `isWs`; `trimChars` is the JS `trim`. -/
def trimChars (l : List Char) : List Char :=
  ((l.dropWhile isWs).reverse.dropWhile isWs).reverse

/-- One step of JS `split`: `jsSplitGo sep skipping cur l` walks `l`
accumulating the current token `cur` (reversed); `skipping` is true while
inside a separator run. Mirrors `String.prototype.split(/sep+/)`. -/
def jsSplitGo (sep : Char → Bool) : Bool → List Char → List Char → List (List Char)
  | skipping, cur, [] => if skipping then [[]] else [cur.reverse]
  | skipping, cur, c :: rest =>
    if sep c then
      if skipping then jsSplitGo sep true [] rest
      else cur.reverse :: jsSplitGo sep true [] rest
    else jsSplitGo sep false (c :: cur) rest

/-- JS `s.split(/<sep>+/)` where `<sep>` is a character class. -/
def jsSplit (sep : Char → Bool) (l : List Char) : List (List Char) :=
  jsSplitGo sep false [] l

/-- JS `s.split(/\s+/)`. -/
def jsSplitWs (l : List Char) : List (List Char) := jsSplit isWs l

/-- JS `s.split(/[\s-]+/)`. -/
def jsSplitWsHyphen (l : List Char) : List (List Char) :=
  jsSplit (fun c => isWs c || c == '-') l

/-! ### Name decomposer (`extractLocationTerms`, `extractMainHospitalName`) -/

/-- The hard-coded gazetteer of locality names from `chatRoutes.js`
(the alternation `sarjapur|jayanagar|...|commercial street`). -/
def gazetteerTerms : List (List Char) :=
  ["sarjapur", "jayanagar", "bannerghatta", "whitefield", "koramangala",
   "indiranagar", "malleshwaram", "rajajinagar", "hebbal", "marathahalli",
   "electronic city", "silk board", "btm", "hsr", "jp nagar", "mg road",
   "brigade road", "commercial street"].map String.data

/-- The road words of the pattern `\w+\s+(road|street|cross|layout|nagar|pura)`. -/
def roadWords : List (List Char) :=
  ["road", "street", "cross", "layout", "nagar", "pura"].map String.data

/-- The suffix keywords of the pattern `\s+(hospital|medical center|clinic)s?$`. -/
def suffixKeywords : List (List Char) :=
  ["hospital", "medical center", "clinic"].map String.data

/-- True when some term of `ts` is an initial segment of `l` and the rest of
`l` can be consumed by `.*$`: since JS `.` does not match line terminators
and `$` (without the `m` flag) only matches at the very end of the string,
the suffix after the term must contain no line terminator. -/
def startsWithAnyToEnd (ts : List (List Char)) (l : List Char) : Bool :=
  ts.any (fun t => startsList t l && noNL (l.drop t.length))

/-- `wsPlusThen k l`: `l` begins with one or more `\s` characters followed by a
suffix accepted by `k` — the backtracking semantics of `\s+` before `k`. -/
def wsPlusThen (k : List Char → Bool) : List Char → Bool
  | [] => false
  | c :: rest => isWs c && (k rest || wsPlusThen k rest)

/-- `wPlusThen k l`: `l` begins with one or more `\w` characters followed by a
suffix accepted by `k` — the backtracking semantics of `\w+` before `k`. -/
def wPlusThen (k : List Char → Bool) : List Char → Bool
  | [] => false
  | c :: rest => isWordChar c && (k rest || wPlusThen k rest)

/-- Matcher of `/\s+(<gazetteer terms>).*$/` at the start of a list (`\s`
does match line terminators, `.*$` requires the remainder after the term to
be free of them). -/
def gazCutPat (l : List Char) : Bool := wsPlusThen (startsWithAnyToEnd gazetteerTerms) l

/-- Matcher of `/\s+\w+\s+(road|street|cross|layout|nagar|pura).*$/` at the
start of a list, with the same `.*$` line-terminator restriction. -/
def roadCutPat (l : List Char) : Bool :=
  wsPlusThen (wPlusThen (wsPlusThen (startsWithAnyToEnd roadWords))) l

/-- Matcher of `/\s+(hospital|medical center|clinic)s?$/` at the start of a
list (the whole rest of the list must be the match, because of `$`). -/
def suffixCutPat (l : List Char) : Bool :=
  wsPlusThen (fun rest => suffixKeywords.any
    (fun kw => rest == kw || rest == kw ++ ['s'])) l

/-- `cutAtFirst p l` truncates `l` at the leftmost position whose suffix
matches `p`: the model of `replace(/<p>.*$/, '')` (and of the `$`-anchored
`replace(/<p>$/, '')`, where `p` consumes the whole suffix). -/
def cutAtFirst (p : List Char → Bool) : List Char → List Char
  | [] => []
  | c :: rest => if p (c :: rest) then [] else c :: cutAtFirst p rest

/-- `extractMainHospitalName` from `chatRoutes.js`: lowercase, strip from the
first whitespace-preceded gazetteer term to the end, strip from the first
`\s+\w+\s+<roadword>` to the end, strip a trailing
`\s+(hospital|medical center|clinic)s?`, then trim. -/
def extractMainHospitalName (hospitalName : String) : String :=
  let m0 := lowerChars hospitalName.data
  let m1 := cutAtFirst gazCutPat m0
  let m2 := cutAtFirst roadCutPat m1
  let m3 := cutAtFirst suffixCutPat m2
  ⟨trimChars m3⟩

/-- Word-boundary check after a match: the next character (if any) must not be
a word character (`\b` between a word character and what follows). -/
def endBoundary : List Char → Bool
  | [] => true
  | c :: _ => !isWordChar c

/-- Global scan for `/\b(<gazetteer terms>)\b/g` on a lowercased list.
`prevWord` records whether the previously consumed character was a word
character (so `\b` holds exactly when it is false); `fuel` bounds recursion. -/
def scanGazGo : Nat → Bool → List Char → List (List Char)
  | 0, _, _ => []
  | _ + 1, _, [] => []
  | fuel + 1, prevWord, c :: rest =>
    if !prevWord then
      match gazetteerTerms.find?
          (fun t => startsList t (c :: rest) && endBoundary ((c :: rest).drop t.length)) with
      | some t => t :: scanGazGo fuel true ((c :: rest).drop t.length)
      | none => scanGazGo fuel (isWordChar c) rest
    else scanGazGo fuel (isWordChar c) rest

/-- All matches of the gazetteer pattern `/\b(sarjapur|...)\b/gi`. -/
def scanGaz (l : List Char) : List (List Char) := scanGazGo (l.length + 1) false l

/-- Global scan for `/\b(\w+)\s+(road|street|cross|layout|nagar|pura)\b/g`:
at a boundary, a maximal word run, then a whitespace run, then a road word
followed by a boundary. -/
def scanRoadGo : Nat → Bool → List Char → List (List Char)
  | 0, _, _ => []
  | _ + 1, _, [] => []
  | fuel + 1, prevWord, c :: rest =>
    if !prevWord && isWordChar c then
      let w := (c :: rest).takeWhile isWordChar
      let rest1 := (c :: rest).dropWhile isWordChar
      let ws := rest1.takeWhile isWs
      let rest2 := rest1.dropWhile isWs
      if ws.isEmpty then scanRoadGo fuel (isWordChar c) rest
      else
        match roadWords.find?
            (fun r => startsList r rest2 && endBoundary (rest2.drop r.length)) with
        | some r => (w ++ ws ++ r) :: scanRoadGo fuel true (rest2.drop r.length)
        | none => scanRoadGo fuel (isWordChar c) rest
    else scanRoadGo fuel (isWordChar c) rest

/-- All matches of `/\b(\w+)\s+(road|street|cross|layout|nagar|pura)\b/gi`. -/
def scanRoadPat (l : List Char) : List (List Char) := scanRoadGo (l.length + 1) false l

/-- Global scan for `/\b(old|new)\s+(\w+)\b/g`. -/
def scanOldNewGo : Nat → Bool → List Char → List (List Char)
  | 0, _, _ => []
  | _ + 1, _, [] => []
  | fuel + 1, prevWord, c :: rest =>
    if !prevWord then
      match [('o' :: 'l' :: 'd' :: []), ('n' :: 'e' :: 'w' :: [])].find?
          (fun t => startsList t (c :: rest)) with
      | some t =>
        let rest1 := (c :: rest).drop t.length
        let ws := rest1.takeWhile isWs
        let rest2 := rest1.dropWhile isWs
        let w := rest2.takeWhile isWordChar
        if ws.isEmpty || w.isEmpty then scanOldNewGo fuel (isWordChar c) rest
        else (t ++ ws ++ w) :: scanOldNewGo fuel true (rest2.drop w.length)
      | none => scanOldNewGo fuel (isWordChar c) rest
    else scanOldNewGo fuel (isWordChar c) rest

/-- All matches of `/\b(old|new)\s+(\w+)\b/gi`. -/
def scanOldNew (l : List Char) : List (List Char) := scanOldNewGo (l.length + 1) false l

/-- `[...new Set(xs)]`: deduplicate keeping the first occurrence. -/
def dedupKeepFirst (l : List (List Char)) : List (List Char) :=
  l.foldl (fun acc x => if acc.contains x then acc else acc ++ [x]) []

/-- `extractLocationTerms` from `chatRoutes.js`: lowercase the name, collect
the matches of the three location patterns, trim each match and deduplicate
preserving insertion order. -/
def extractLocationTerms (hospitalName : String) : List String :=
  let name := lowerChars hospitalName.data
  let ms := scanGaz name ++ scanRoadPat name ++ scanOldNew name
  (dedupKeepFirst (ms.map trimChars)).map (fun t => (⟨t⟩ : String))

/-! ### Data model -/

/-- Payload of an indexed point (a `HospitalRecord`). Fields that may be
absent in JS (`payload?.name || ""`) are modelled by the empty string;
`unique_key` keeps its genuinely optional nature. -/
structure Payload where
  name : String
  address : String
  city : String
  unique_key : Option String := none
deriving DecidableEq

/-- A search hit returned by the vector index: payload plus similarity score. -/
structure Hit where
  payload : Payload
  score : ℚ
deriving DecidableEq

/-- An entry of the merged candidate set in `confirmHospital`
(`{ ...hit, source, searchQuery }`). -/
structure MergedHit where
  payload : Payload
  score : ℚ
  source : String
  searchQuery : Option String
deriving DecidableEq

/-! ### Similarity scorer -/

/-- `calculateNameSimilarity` from `chatRoutes.js`: exact match → 1,
substring containment either way → 0.9, otherwise token overlap
`matchedWords / max(len, len)` plus a 0.2 key-term bonus, capped at 1. -/
def calculateNameSimilarity (searchName hospitalName : String) : ℚ :=
  let search := trimChars (lowerChars searchName.data)
  let hospital := trimChars (lowerChars hospitalName.data)
  if search == hospital then 1
  else if containsList hospital search || containsList search hospital then 9/10
  else
    let searchWords := jsSplitWs search
    let hospitalWords := jsSplitWs hospital
    let matchedWords := (searchWords.filter (fun w =>
      hospitalWords.any (fun hw => containsList hw w || containsList w hw))).length
    let wordMatchScore : ℚ := (matchedWords : ℚ) / (max searchWords.length hospitalWords.length : ℚ)
    let keyTermBonus : ℚ :=
      if searchWords.any (fun w =>
          hospitalWords.any (fun hw => containsList hw w && decide (4 ≤ w.length))) then 1/5
      else 0
    min 1 (wordMatchScore + keyTermBonus)

/-- The stopword list of `calculateAddressSimilarity`. -/
def addressStopwords : List (List Char) :=
  ["hospital", "medical", "center", "clinic", "the", "and", "of", "in", "at", "on"].map
    String.data

/-- `calculateAddressSimilarity` from `chatRoutes.js`: fraction of
non-stopword query tokens of length ≥ 3 found as substrings of the address. -/
def calculateAddressSimilarity (query address : String) : ℚ :=
  let queryLower := lowerChars query.data
  let addressLower := lowerChars address.data
  let queryTerms := (jsSplitWs queryLower).filter (fun t =>
    decide (3 ≤ t.length) && !(addressStopwords.contains t))
  let matchCount := (queryTerms.filter (fun t => containsList addressLower t)).length
  if 0 < queryTerms.length then (matchCount : ℚ) / (queryTerms.length : ℚ) else 0

/-- `matchDetails` returned by `calculateEnhancedSimilarity`. -/
structure MatchDetails where
  mainName : String
  locationTerms : List String
  hospitalName : String
  hospitalAddress : String
deriving DecidableEq

/-- The record returned by `calculateEnhancedSimilarity`. -/
structure ScoreResult where
  nameScore : ℚ
  locationScore : ℚ
  addressScore : ℚ
  overallNameScore : ℚ
  totalScore : ℚ
  matchDetails : MatchDetails
deriving DecidableEq

/-- Credit one location term earns inside `calculateEnhancedSimilarity`: full
(1) on containment in address or name; half (1/2) when the term is longer
than 4 characters and some `[\s-]+`-split part of length ≥ 3 is contained;
else 0. -/
def locationTermCredit (addressLower nameLower : List Char) (term : String) : ℚ :=
  let termLower := lowerChars term.data
  if containsList addressLower termLower || containsList nameLower termLower then 1
  else if 4 < termLower.length then
    let termParts := jsSplitWsHyphen termLower
    if termParts.any (fun part =>
        decide (3 ≤ part.length) &&
          (containsList addressLower part || containsList nameLower part)) then 1/2
    else 0
  else 0

/-- `calculateEnhancedSimilarity` from `chatRoutes.js`: the four weighted
components and their sum. -/
def calculateEnhancedSimilarity (originalQuery mainName : String)
    (locationTerms : List String) (payload : Payload) : ScoreResult :=
  let hospitalName := payload.name
  let hospitalAddress := payload.address
  let nameScore := calculateNameSimilarity mainName hospitalName * (2/5)
  let locationScore : ℚ :=
    if 0 < locationTerms.length then
      let addressLower := lowerChars hospitalAddress.data
      let nameLower := lowerChars hospitalName.data
      let matchedTerms : ℚ :=
        locationTerms.foldl (fun acc term => acc + locationTermCredit addressLower nameLower term) 0
      min 1 (matchedTerms / (locationTerms.length : ℚ)) * (7/20)
    else 0
  let addressScore := calculateAddressSimilarity originalQuery hospitalAddress * (3/20)
  let overallNameScore := calculateNameSimilarity originalQuery hospitalName * (1/10)
  { nameScore := nameScore
    locationScore := locationScore
    addressScore := addressScore
    overallNameScore := overallNameScore
    totalScore := nameScore + locationScore + addressScore + overallNameScore
    matchDetails :=
      { mainName := mainName
        locationTerms := locationTerms
        hospitalName := hospitalName
        hospitalAddress := hospitalAddress } }

/-! ### City filter -/

/-- The hard-coded `cityMappings` object lookup in `filterByCity`
(a missing key yields `[]`, the JS `|| []`). -/
def cityMappings (cityLower : List Char) : List (List Char) :=
  if cityLower = "bangalore".data then ["bengaluru".data, "banglore".data]
  else if cityLower = "bengaluru".data then ["bangalore".data, "banglore".data]
  else if cityLower = "mumbai".data then ["bombay".data]
  else if cityLower = "bombay".data then ["mumbai".data]
  else if cityLower = "delhi".data then ["new delhi".data]
  else if cityLower = "new delhi".data then ["delhi".data]
  else []

/-- The per-candidate predicate of `filterByCity` (the body of the
`results.filter` callback, written as the disjunction of its early
`return true` branches). -/
def cityMatchPred (cityLower : List Char) (h : MergedHit) : Bool :=
  let resultCity := lowerChars h.payload.city.data
  let resultAddress := lowerChars h.payload.address.data
  (resultCity == cityLower) ||
  (containsList resultCity cityLower || containsList resultAddress cityLower) ||
  (containsList cityLower resultCity && decide (3 ≤ resultCity.length)) ||
  ((cityMappings cityLower).any fun variation =>
    containsList resultCity variation || containsList resultAddress variation)

/-- `filterByCity` from `chatRoutes.js`; the absent/empty city (`!city`)
passes the list through unchanged. -/
def filterByCity (results : List MergedHit) (city : String) : List MergedHit :=
  if city.data = [] then results
  else results.filter (cityMatchPred (lowerChars city.data))

/-! ### Merging and deduplication in `confirmHospital` -/

/-- The dedup key `` `${name}|${city}|${address}` `` built from a payload. -/
def tripleKey (p : Payload) : String :=
  p.name ++ "|" ++ p.city ++ "|" ++ p.address

/-- One batch of the merge loop in `confirmHospital`: push every hit whose
key is not yet in `seen`, remembering its key, tagging it with `source` and
(for semantic batches) the query that produced it. -/
def mergeBatch (st : List String × List MergedHit) (hits : List Hit)
    (source : String) (searchQuery : Option String) : List String × List MergedHit :=
  match hits with
  | [] => st
  | hit :: rest =>
    let key := tripleKey hit.payload
    if st.1.contains key then mergeBatch st rest source searchQuery
    else mergeBatch (key :: st.1,
      st.2 ++ [{ payload := hit.payload, score := hit.score,
                 source := source, searchQuery := searchQuery }]) rest source searchQuery

/-- The complete merge of `confirmHospital` steps 3–4: the semantic batches
(one per query variant, in order) followed by the fuzzy batch. -/
def mergeAll (semBatches : List (String × List Hit)) (fuzzy : List Hit) : List MergedHit :=
  let st := semBatches.foldl (fun st b => mergeBatch st b.2 "semantic" (some b.1)) ([], [])
  (mergeBatch st fuzzy "fuzzy" none).2

/-! ### Scoring, ranking and truncation in `confirmHospital` -/

/-- A candidate after scoring (`{ ...hit, ...scoring, totalSimilarity }`). -/
structure ScoredHit where
  payload : Payload
  score : ℚ
  source : String
  searchQuery : Option String
  nameScore : ℚ
  locationScore : ℚ
  addressScore : ℚ
  overallNameScore : ℚ
  totalScore : ℚ
  matchDetails : MatchDetails
  totalSimilarity : ℚ
deriving DecidableEq

/-- Attach the scoring record to a merged hit. -/
def attachScore (originalQuery mainName : String) (locationTerms : List String)
    (h : MergedHit) : ScoredHit :=
  let scoring := calculateEnhancedSimilarity originalQuery mainName locationTerms h.payload
  { payload := h.payload, score := h.score, source := h.source,
    searchQuery := h.searchQuery,
    nameScore := scoring.nameScore, locationScore := scoring.locationScore,
    addressScore := scoring.addressScore, overallNameScore := scoring.overallNameScore,
    totalScore := scoring.totalScore, matchDetails := scoring.matchDetails,
    totalSimilarity := scoring.totalScore }

/-- The comparator `(a, b) => b.totalSimilarity - a.totalSimilarity`:
descending order of `totalSimilarity`. -/
def scoreDesc (a b : ScoredHit) : Prop := b.totalSimilarity ≤ a.totalSimilarity

instance : DecidableRel scoreDesc :=
  fun a b => inferInstanceAs (Decidable (b.totalSimilarity ≤ a.totalSimilarity))

/-- Steps 5–6 of `confirmHospital`: city filter, scoring, the stable
descending sort (JS `Array.prototype.sort` is stable, so it agrees with
insertion sort), the `≥ 0.25` cut and `slice(0, 3)`. -/
def rankCandidates (hospitalName mainName : String) (locationTerms : List String)
    (city : String) (allResults : List MergedHit) : List ScoredHit :=
  let cityFiltered := filterByCity allResults city
  let scoredResults := cityFiltered.map (attachScore hospitalName mainName locationTerms)
  let sorted := scoredResults.insertionSort scoreDesc
  let goodMatches := sorted.filter (fun h => decide ((1/4 : ℚ) ≤ h.totalSimilarity))
  goodMatches.take 3

/-! ### `confirmHospital` with fallible collaborators

`embedText` + `hybridSearch` for one query variant are modelled together by
an oracle `sem : String → Except String (Option (List Hit))` (`Except.error`
is a thrown exception, `none` a response without a `result` field);
`fuzzyMatchHospital` by one `Except` value. -/

/-- Turn a failed retrieval source into an empty one (used to state that a
failing source is equivalent to a source returning nothing). -/
def dropFailure (e : Except String (Option (List Hit))) :
    Except String (Option (List Hit)) :=
  match e with
  | .error _ => .ok none
  | x => x

/-- JS `try { x } catch (e) { h(e) }` over the exception monad. -/
def tryCatchE {α : Type} (x : Except String α) (h : String → Except String α) :
    Except String α :=
  match x with
  | .ok a => .ok a
  | .error e => h e

/-- The body of the per-variant loop of `confirmHospital`: embed and search
(one oracle call), merge the hits into the accumulated `(seen, results)`
state; on a thrown error, log and continue with the state unchanged. -/
def semStep (sem : String → Except String (Option (List Hit)))
    (st : List String × List MergedHit) (query : String) :
    Except String (List String × List MergedHit) :=
  tryCatchE
    (match sem query with
     | .ok (some hits) => .ok (mergeBatch st hits "semantic" (some query))
     | .ok none => .ok st
     | .error e => .error e)
    (fun _ => .ok st)

/-- The fuzzy-search step of `confirmHospital` with its own try/catch. -/
def fuzzyStep (fuzzy : Except String (Option (List Hit)))
    (st : List String × List MergedHit) :
    Except String (List String × List MergedHit) :=
  tryCatchE
    (match fuzzy with
     | .ok (some hits) => .ok (mergeBatch st hits "fuzzy" none)
     | .ok none => .ok st
     | .error e => .error e)
    (fun _ => .ok st)

/-- `confirmHospital` from `chatRoutes.js`: the three query variants, the
per-variant semantic search with its own try/catch, the fuzzy search with
its own try/catch, then `rankCandidates` — all inside the outer try/catch
that turns any failure into `[]`. -/
def confirmHospitalE (hospitalName city : String)
    (sem : String → Except String (Option (List Hit)))
    (fuzzy : Except String (Option (List Hit))) : Except String (List ScoredHit) :=
  tryCatchE
    (let locationTerms := extractLocationTerms hospitalName
     let mainHospitalName := extractMainHospitalName hospitalName
     let searchQueries := [hospitalName,
       mainHospitalName ++ " " ++ String.intercalate " " locationTerms,
       if city.data = [] then hospitalName else hospitalName ++ " " ++ city]
     match searchQueries.foldlM (semStep sem) ([], []) with
     | .error e => .error e
     | .ok st =>
       match fuzzyStep fuzzy st with
       | .error e => .error e
       | .ok st2 =>
         .ok (rankCandidates hospitalName mainHospitalName locationTerms city st2.2))
    (fun _ => .ok [])

/-! ### The search (non-confirmation) path

`hybridSearch` in `qdrantClient.js` sends the query to the index and
post-processes the response; the response list (already ranked by the index)
is the `raw` parameter below. -/

/-- The dedup key of `hybridSearch`:
`payload?.unique_key || \`${name}|${city}|${address}\``. -/
def hybridKey (p : Payload) : String :=
  match p.unique_key with
  | some s => if s.data = [] then tripleKey p else s
  | none => tripleKey p

/-- First-occurrence deduplication by `hybridKey`, as in `hybridSearch`. -/
def dedupByKey (seen : List String) : List Hit → List Hit
  | [] => []
  | h :: rest =>
    let k := hybridKey h.payload
    if seen.contains k then dedupByKey seen rest
    else h :: dedupByKey (k :: seen) rest

/-- The post-processing of `hybridSearch`: deduplicate, then with a city
filter split into exact city matches and partial (substring) matches, exact
first, and truncate to `topK`. -/
def hybridPost (raw : List Hit) (topK : Nat) (cityFilter : Option String) : List Hit :=
  let uniqueResults := dedupByKey [] raw
  match cityFilter with
  | some cf =>
    let cityLower := lowerChars cf.data
    let exactMatches := uniqueResults.filter
      (fun r => lowerChars r.payload.city.data == cityLower)
    let partialMatches := uniqueResults.filter (fun r =>
      !(lowerChars r.payload.city.data == cityLower) &&
      (containsList (lowerChars r.payload.city.data) cityLower ||
        containsList (lowerChars r.payload.address.data) cityLower))
    (exactMatches ++ partialMatches).take topK
  | none => uniqueResults.take topK

/-- An item returned by `searchHospitals`. -/
structure SearchItem where
  name : String
  address : String
  city : String
  score : ℚ
deriving DecidableEq

/-- The hit-to-item mapping of `searchHospitals`
(`p.name?.trim() || "Unknown"`, etc.). -/
def toSearchItem (h : Hit) : SearchItem :=
  { name := if trimChars h.payload.name.data = [] then "Unknown"
            else ⟨trimChars h.payload.name.data⟩
    address := if trimChars h.payload.address.data = [] then "N/A"
               else ⟨trimChars h.payload.address.data⟩
    city := if trimChars h.payload.city.data = [] then "N/A"
            else ⟨trimChars h.payload.city.data⟩
    score := h.score }

/-- `searchHospitals` with a city: `hybridSearch` post-processing with the
caller's `limit`, then the map to items and the drop of nameless hits. -/
def searchHospitalsCity (raw : List Hit) (city : String) (limit : Nat) : List SearchItem :=
  ((hybridPost raw limit (some city)).map toSearchItem).filter
    (fun it => !(it.name == "Unknown"))

/-! ### Shared bound lemmas for the scorer -/

theorem calcNameSim_nonneg (a b : String) : 0 ≤ calculateNameSimilarity a b := by
  simp only [calculateNameSimilarity]
  split
  · norm_num
  · split
    · norm_num
    · apply le_min (by norm_num)
      apply add_nonneg
      · apply div_nonneg (Nat.cast_nonneg _)
        exact le_max_of_le_left (Nat.cast_nonneg _)
      · split <;> norm_num

theorem calcNameSim_le_one (a b : String) : calculateNameSimilarity a b ≤ 1 := by
  simp only [calculateNameSimilarity]
  split
  · norm_num
  · split
    · norm_num
    · exact min_le_left _ _

theorem calcAddrSim_nonneg (a b : String) : 0 ≤ calculateAddressSimilarity a b := by
  simp only [calculateAddressSimilarity]
  split
  · exact div_nonneg (Nat.cast_nonneg _) (Nat.cast_nonneg _)
  · norm_num

theorem calcAddrSim_le_one (a b : String) : calculateAddressSimilarity a b ≤ 1 := by
  simp only [calculateAddressSimilarity]
  split
  · apply div_le_one_of_le₀
    · exact_mod_cast List.length_filter_le _ _
    · exact Nat.cast_nonneg _
  · norm_num

theorem locationTermCredit_nonneg (al nl : List Char) (t : String) :
    0 ≤ locationTermCredit al nl t := by
  simp only [locationTermCredit]
  split
  · norm_num
  · split
    · split <;> norm_num
    · norm_num

theorem foldl_add_nonneg (f : String → ℚ) (hf : ∀ t, 0 ≤ f t) (l : List String) :
    ∀ acc : ℚ, 0 ≤ acc → 0 ≤ l.foldl (fun a t => a + f t) acc := by
  induction l with
  | nil => intro acc h; simpa using h
  | cons x xs ih => intro acc h; exact ih _ (add_nonneg h (hf x))

theorem enhanced_locationScore_bounds (oq mn : String) (lt : List String) (p : Payload) :
    0 ≤ (calculateEnhancedSimilarity oq mn lt p).locationScore ∧
    (calculateEnhancedSimilarity oq mn lt p).locationScore ≤ 7/20 := by
  simp only [calculateEnhancedSimilarity]
  constructor
  · split
    · apply mul_nonneg _ (by norm_num)
      apply le_min (by norm_num)
      apply div_nonneg _ (Nat.cast_nonneg _)
      exact foldl_add_nonneg _ (fun t => locationTermCredit_nonneg _ _ t) _ 0 le_rfl
    · norm_num
  · split
    · calc min 1 _ * (7/20 : ℚ) ≤ 1 * (7/20) :=
            mul_le_mul_of_nonneg_right (min_le_left _ _) (by norm_num)
        _ = 7/20 := by norm_num
    · norm_num

/-- C3: for every original query, decomposed main name, location-term list and
candidate payload, `totalScore` is the sum of the four weighted components,
each weighted component lies in `[0, weight]`
(weights 0.4, 0.35, 0.15, 0.1), and the total lies in `[0, 1]`, hence inside
the claimed band `0 ≤ totalScore ≤ 0.4 + 0.35 + 0.15 + 0.1 + bonus ceiling`
(`≤ 1.1`): it is never negative and never exceeds the band. -/
theorem claim_C3_totalScore_band (originalQuery mainName : String)
    (locationTerms : List String) (payload : Payload) :
    (calculateEnhancedSimilarity originalQuery mainName locationTerms payload).totalScore =
      (calculateEnhancedSimilarity originalQuery mainName locationTerms payload).nameScore +
      (calculateEnhancedSimilarity originalQuery mainName locationTerms payload).locationScore +
      (calculateEnhancedSimilarity originalQuery mainName locationTerms payload).addressScore +
      (calculateEnhancedSimilarity originalQuery mainName locationTerms payload).overallNameScore ∧
    (0 ≤ (calculateEnhancedSimilarity originalQuery mainName locationTerms payload).nameScore ∧
      (calculateEnhancedSimilarity originalQuery mainName locationTerms payload).nameScore ≤ 2/5) ∧
    (0 ≤ (calculateEnhancedSimilarity originalQuery mainName locationTerms payload).locationScore ∧
      (calculateEnhancedSimilarity originalQuery mainName locationTerms payload).locationScore ≤ 7/20) ∧
    (0 ≤ (calculateEnhancedSimilarity originalQuery mainName locationTerms payload).addressScore ∧
      (calculateEnhancedSimilarity originalQuery mainName locationTerms payload).addressScore ≤ 3/20) ∧
    (0 ≤ (calculateEnhancedSimilarity originalQuery mainName locationTerms payload).overallNameScore ∧
      (calculateEnhancedSimilarity originalQuery mainName locationTerms payload).overallNameScore ≤ 1/10) ∧
    0 ≤ (calculateEnhancedSimilarity originalQuery mainName locationTerms payload).totalScore ∧
    (calculateEnhancedSimilarity originalQuery mainName locationTerms payload).totalScore ≤ 1 ∧
    (calculateEnhancedSimilarity originalQuery mainName locationTerms payload).totalScore ≤ 11/10 := by
  have hn1 := calcNameSim_nonneg mainName payload.name
  have hn2 := calcNameSim_le_one mainName payload.name
  have ho1 := calcNameSim_nonneg originalQuery payload.name
  have ho2 := calcNameSim_le_one originalQuery payload.name
  have ha1 := calcAddrSim_nonneg originalQuery payload.address
  have ha2 := calcAddrSim_le_one originalQuery payload.address
  have hl := enhanced_locationScore_bounds originalQuery mainName locationTerms payload
  simp only [calculateEnhancedSimilarity] at hl ⊢
  refine ⟨trivial, ⟨by nlinarith, by nlinarith⟩, hl, ⟨by nlinarith, by nlinarith⟩,
    ⟨by nlinarith, by nlinarith⟩, by nlinarith [hl.1, hl.2], by nlinarith [hl.1, hl.2],
    by nlinarith [hl.1, hl.2]⟩

/-- A concrete merged hit used by witnesses. -/
def demoMerged : MergedHit where
  payload := { name := "Apollo", address := "", city := "Delhi" }
  score := 1
  source := "semantic"
  searchQuery := none

/-- C10: `filterByCity` always returns a subsequence of its input —
candidates are never added, modified or reordered — and with the absent /
empty city (what the chat route passes when the intent carries no city) the
input list is returned unchanged. -/
theorem claim_C10_filterByCity_subsequence (results : List MergedHit) (city : String) :
    (filterByCity results city).Sublist results ∧
      (city = "" → filterByCity results city = results) := by
  constructor
  · unfold filterByCity
    split
    · exact List.Sublist.refl _
    · exact List.filter_sublist _
  · intro h
    subst h
    rfl

/-- Witness for C10 at a concrete list and the empty city. -/
theorem claim_C10_witness :
    filterByCity [demoMerged] "" = [demoMerged] :=
  (claim_C10_filterByCity_subsequence [demoMerged] "").2 rfl

/-- A candidate stored under the spelling `Bengaluru`. -/
def bengaluruHit : MergedHit where
  payload := { name := "Fortis", address := "", city := "Bengaluru" }
  score := 1
  source := "semantic"
  searchQuery := none

/-- A candidate stored under the misspelling `Banglore`. -/
def bangloreHit : MergedHit where
  payload := { name := "Fortis", address := "", city := "Banglore" }
  score := 1
  source := "semantic"
  searchQuery := none

/-- Counterexample to C4: `banglore` is an alias value but not a key of
`cityMappings`, so filtering with query city `banglore` drops a candidate
stored as `Bengaluru` — while the opposite direction keeps the candidate.
The claimed symmetry for the pair `banglore↔bengaluru` fails. -/
theorem claim_C4_cex :
    filterByCity [bengaluruHit] "banglore" = [] ∧
    filterByCity [bangloreHit] "bengaluru" = [bangloreHit] := by
  constructor <;> rfl

/-- The alias-table membership argument for one disjunct of
`cityMatchPred`: if the alias scan succeeds the predicate holds. -/
theorem cityMatchPred_of_alias (cl : List Char) (h : MergedHit)
    (ha : ((cityMappings cl).any fun v =>
      containsList (lowerChars h.payload.city.data) v ||
        containsList (lowerChars h.payload.address.data) v) = true) :
    cityMatchPred cl h = true := by
  simp only [cityMatchPred, ha, Bool.or_true]

/-- C4 (amended): the city filter is symmetric for the configured pairs
bangalore↔bengaluru, mumbai↔bombay and delhi↔new delhi; for `banglore` only
the inbound direction holds (a candidate stored as `banglore` is retained
when the query city is `bangalore` or `bengaluru`); the query spelling
`banglore` retains neither `bangalore` nor `bengaluru` candidates. -/
theorem claim_C4_alias_retention (results : List MergedHit) (h : MergedHit)
    (hm : h ∈ results) :
    (lowerChars h.payload.city.data = "bengaluru".data →
      h ∈ filterByCity results "bangalore") ∧
    (lowerChars h.payload.city.data = "bangalore".data →
      h ∈ filterByCity results "bengaluru") ∧
    (lowerChars h.payload.city.data = "banglore".data →
      h ∈ filterByCity results "bangalore") ∧
    (lowerChars h.payload.city.data = "banglore".data →
      h ∈ filterByCity results "bengaluru") ∧
    (lowerChars h.payload.city.data = "bombay".data →
      h ∈ filterByCity results "mumbai") ∧
    (lowerChars h.payload.city.data = "mumbai".data →
      h ∈ filterByCity results "bombay") ∧
    (lowerChars h.payload.city.data = "new delhi".data →
      h ∈ filterByCity results "delhi") ∧
    (lowerChars h.payload.city.data = "delhi".data →
      h ∈ filterByCity results "new delhi") := by
  refine ⟨?_, ?_, ?_, ?_, ?_, ?_, ?_, ?_⟩ <;> intro hc <;>
    (simp only [lowerChars] at hc
     unfold filterByCity
     rw [if_neg (by decide)]
     refine List.mem_filter.mpr ⟨hm, ?_⟩
     simp +decide [cityMatchPred, cityMappings, lowerChars, hc, containsList, startsList])

/-- Witness for C4 at a concrete candidate list: a `Bengaluru` candidate is
retained by the query city `bangalore`. -/
theorem claim_C4_witness : bengaluruHit ∈ filterByCity [bengaluruHit] "bangalore" :=
  (claim_C4_alias_retention [bengaluruHit] bengaluruHit (List.Mem.head _)).1 rfl

/-! ### C5: the token-overlap branch of the name score -/

/-- The normalized whitespace tokens of a name (spec-side vocabulary). -/
def nameTokens (s : String) : List (List Char) :=
  jsSplitWs (trimChars (lowerChars s.data))

/-- A token pair counts as matched when either token contains the other. -/
def tokenPairMatches (w hw : List Char) : Bool :=
  containsList hw w || containsList w hw

/-- The token overlap score `matchedTokens / max(len(queryTokens),
len(candidateTokens))` of the specification. -/
def tokenOverlapScore (q c : String) : ℚ :=
  (((nameTokens q).filter (fun w => (nameTokens c).any (tokenPairMatches w))).length : ℚ) /
    (max (nameTokens q).length (nameTokens c).length : ℚ)

/-- The bonus condition as the code implements it: some candidate token
contains a query token of length ≥ 4. -/
def codeKeyTermBonus (q c : String) : Bool :=
  (nameTokens q).any (fun w =>
    (nameTokens c).any (fun hw => containsList hw w && decide (4 ≤ w.length)))

/-- The bonus condition as claim C5 states it: some query token of length
≥ 4 has a containment match (in either direction) with a candidate token. -/
def claimKeyTermBonus (q c : String) : Bool :=
  (nameTokens q).any (fun w =>
    (nameTokens c).any (fun hw => tokenPairMatches w hw && decide (4 ≤ w.length)))

/-- Counterexample to C5: for query `"abcd x"` and candidate `"abc y"`
neither exact equality nor substring containment applies, the query token
`abcd` (length ≥ 4) has an either-direction containment match with the
candidate token `abc` (it contains it), so the claimed rule yields
`min 1 (1/2 + 1/5) = 7/10` — but the code, whose bonus requires the
candidate token to contain the query token, returns `1/2`. -/
theorem claim_C5_cex :
    trimChars (lowerChars ("abcd x" : String).data) ≠
        trimChars (lowerChars ("abc y" : String).data) ∧
    containsList (trimChars (lowerChars ("abc y" : String).data))
        (trimChars (lowerChars ("abcd x" : String).data)) = false ∧
    containsList (trimChars (lowerChars ("abcd x" : String).data))
        (trimChars (lowerChars ("abc y" : String).data)) = false ∧
    claimKeyTermBonus "abcd x" "abc y" = true ∧
    tokenOverlapScore "abcd x" "abc y" = 1/2 ∧
    calculateNameSimilarity "abcd x" "abc y" = 1/2 ∧
    ((1 : ℚ) ⊓ (1/2 + 1/5)) ≠ 1/2 := by
  refine ⟨by decide, by decide, by decide, by decide, ?_, ?_, by norm_num⟩
  · simp +decide [tokenOverlapScore, nameTokens, jsSplitWs, jsSplit, jsSplitGo,
      trimChars, lowerChars, toLowerChar, ucLcPairs, isWs, containsList, startsList,
      tokenPairMatches]
  · simp +decide [calculateNameSimilarity, jsSplitWs, jsSplit, jsSplitGo, trimChars,
      lowerChars, toLowerChar, ucLcPairs, isWs, containsList, startsList]
    all_goals norm_num

/-- C5 (amended): when neither exact case-insensitive equality nor substring
containment applies, the name score is the token overlap ratio plus a flat
+0.2 bonus exactly when some candidate token contains a query token of
length ≥ 4 (one direction only — a query token containing a shorter
candidate token earns no bonus), the final value clamped to `[0, 1]`. -/
theorem claim_C5_token_overlap (q c : String)
    (hne : trimChars (lowerChars q.data) ≠ trimChars (lowerChars c.data))
    (hs1 : containsList (trimChars (lowerChars c.data))
      (trimChars (lowerChars q.data)) = false)
    (hs2 : containsList (trimChars (lowerChars q.data))
      (trimChars (lowerChars c.data)) = false) :
    calculateNameSimilarity q c =
      min 1 (tokenOverlapScore q c + if codeKeyTermBonus q c then 1/5 else 0) ∧
    0 ≤ calculateNameSimilarity q c ∧ calculateNameSimilarity q c ≤ 1 := by
  refine ⟨?_, calcNameSim_nonneg q c, calcNameSim_le_one q c⟩
  simp only [calculateNameSimilarity, tokenOverlapScore, codeKeyTermBonus, nameTokens,
    tokenPairMatches]
  rw [if_neg (by simp [hne]), if_neg (by simp [hs1, hs2])]
  rfl

/-- Witness for C5 at names with no exact or substring relation. -/
theorem claim_C5_witness :
    calculateNameSimilarity "alpha beta" "alpha gamma" =
      min 1 (tokenOverlapScore "alpha beta" "alpha gamma" +
        if codeKeyTermBonus "alpha beta" "alpha gamma" then 1/5 else 0) ∧
    0 ≤ calculateNameSimilarity "alpha beta" "alpha gamma" ∧
    calculateNameSimilarity "alpha beta" "alpha gamma" ≤ 1 :=
  claim_C5_token_overlap "alpha beta" "alpha gamma" (by decide) (by decide) (by decide)

/-! ### C6: the location-score component -/

/-- Per-term credit as the amended claim states it: full credit on
containment in address or name; otherwise, for a term of length at least 5,
half credit when some `[\s-]+`-split sub-part of length ≥ 3 is contained. -/
def specTermCredit (addressLower nameLower : List Char) (term : String) : ℚ :=
  let t := lowerChars term.data
  if containsList addressLower t || containsList nameLower t then 1
  else if decide (5 ≤ t.length) && (jsSplitWsHyphen t).any
      (fun part => decide (3 ≤ part.length) &&
        (containsList addressLower part || containsList nameLower part)) then 1/2
  else 0

/-- Per-term credit as claim C6 literally states it, without the length
guard on the term. -/
def claimTermCredit (addressLower nameLower : List Char) (term : String) : ℚ :=
  let t := lowerChars term.data
  if containsList addressLower t || containsList nameLower t then 1
  else if (jsSplitWsHyphen t).any
      (fun part => decide (3 ≤ part.length) &&
        (containsList addressLower part || containsList nameLower part)) then 1/2
  else 0

theorem locationTermCredit_eq_spec (al nl : List Char) (t : String) :
    locationTermCredit al nl t = specTermCredit al nl t := by
  simp only [locationTermCredit, specTermCredit]
  split
  · rfl
  · by_cases h4 : 4 < (lowerChars t.data).length
    · rw [if_pos h4]
      by_cases hany : ((jsSplitWsHyphen (lowerChars t.data)).any fun part =>
          decide (3 ≤ part.length) && (containsList al part || containsList nl part)) = true
      · rw [if_pos hany, if_pos ((Bool.and_eq_true _ _).mpr
          ⟨decide_eq_true (by omega), hany⟩)]
      · rw [if_neg hany, if_neg (fun hcond => hany ((Bool.and_eq_true _ _).mp hcond).2)]
    · rw [if_neg h4, if_neg (by
        have h5 : ¬ (5 ≤ (lowerChars t.data).length) := by omega
        simp [h5])]

theorem foldl_add_eq_sum (f : String → ℚ) (l : List String) :
    ∀ a : ℚ, l.foldl (fun acc t => acc + f t) a = a + (l.map f).sum := by
  induction l with
  | nil => intro a; simp
  | cons x xs ih => intro a; simp [ih, add_assoc]

/-- C6 (amended): with a non-empty term list, each term contained in the
candidate address or name earns full credit and each remaining term *of
length at least 5* earns half credit when one of its hyphen/space-split
sub-parts of length ≥ 3 is contained (first match only); the summed credits
are divided by the number of terms, clamped to 1 and weighted by 0.35; with
no location terms the component is 0. -/
theorem claim_C6_locationScore (originalQuery mainName : String)
    (locationTerms : List String) (payload : Payload) :
    (locationTerms ≠ [] →
      (calculateEnhancedSimilarity originalQuery mainName locationTerms payload).locationScore =
        min 1 ((locationTerms.map (specTermCredit (lowerChars payload.address.data)
            (lowerChars payload.name.data))).sum / (locationTerms.length : ℚ)) * (7/20)) ∧
    (locationTerms = [] →
      (calculateEnhancedSimilarity originalQuery mainName locationTerms payload).locationScore
        = 0) := by
  constructor
  · intro hne
    simp only [calculateEnhancedSimilarity]
    rw [if_pos (by cases locationTerms with
      | nil => exact absurd rfl hne
      | cons a l => simp)]
    rw [foldl_add_eq_sum, zero_add,
      show locationTermCredit (lowerChars payload.address.data)
          (lowerChars payload.name.data) = specTermCredit (lowerChars payload.address.data)
          (lowerChars payload.name.data) from
        funext (locationTermCredit_eq_spec _ _)]
  · intro h
    subst h
    simp [calculateEnhancedSimilarity]

/-- Witness for C6 at a concrete one-term list and the empty list. -/
theorem claim_C6_witness :
    (calculateEnhancedSimilarity "q" "manipal" ["sarjapur"]
        { name := "Manipal", address := "Sarjapur Road", city := "" }).locationScore =
      min 1 (((["sarjapur"] : List String).map (specTermCredit
          (lowerChars ("Sarjapur Road" : String).data)
          (lowerChars ("Manipal" : String).data))).sum / ((1 : Nat) : ℚ)) * (7/20) ∧
    (calculateEnhancedSimilarity "q" "manipal" ([] : List String)
        { name := "Manipal", address := "Sarjapur Road", city := "" }).locationScore = 0 :=
  ⟨(claim_C6_locationScore "q" "manipal" ["sarjapur"]
      { name := "Manipal", address := "Sarjapur Road", city := "" }).1 (by decide),
   (claim_C6_locationScore "q" "manipal" []
      { name := "Manipal", address := "Sarjapur Road", city := "" }).2 rfl⟩

/-- Counterexample to C6: the term `"abc-"` (length 4) is not contained in
the address `"xyz abc q"`, but its sub-part `"abc"` (length ≥ 3) is; claim
C6 as stated awards half credit (location score `0.5/1 · 0.35 = 7/40`),
while the code's `termLower.length > 4` guard makes the sub-part rule
unreachable and yields 0. -/
theorem claim_C6_cex :
    (calculateEnhancedSimilarity "q" "m" ["abc-"]
        { name := "n", address := "xyz abc q", city := "" }).locationScore = 0 ∧
    min 1 (((["abc-"] : List String).map (claimTermCredit
        (lowerChars ("xyz abc q" : String).data)
        (lowerChars ("n" : String).data))).sum / ((1 : Nat) : ℚ)) * (7/20) = 7/40 ∧
    (0 : ℚ) ≠ 7/40 := by
  refine ⟨?_, ?_, by norm_num⟩
  · simp +decide [calculateEnhancedSimilarity, locationTermCredit, containsList,
      startsList, lowerChars, toLowerChar, ucLcPairs, jsSplitWsHyphen, jsSplit,
      jsSplitGo, isWs]
  · simp +decide [claimTermCredit, containsList, startsList, lowerChars, toLowerChar,
      ucLcPairs, jsSplitWsHyphen, jsSplit, jsSplitGo, isWs]
    all_goals norm_num

/-! ### C1 and C8: the confirmation pipeline -/

instance : IsTotal ScoredHit scoreDesc :=
  ⟨fun a b => le_total b.totalSimilarity a.totalSimilarity⟩

instance : IsTrans ScoredHit scoreDesc :=
  ⟨fun _ _ _ h1 h2 => le_trans h2 h1⟩

theorem rankCandidates_props (hn mn : String) (lt : List String) (city : String)
    (allResults : List MergedHit) :
    (rankCandidates hn mn lt city allResults).length ≤ 3 ∧
    (∀ x ∈ rankCandidates hn mn lt city allResults, (1/4 : ℚ) ≤ x.totalSimilarity) ∧
    (rankCandidates hn mn lt city allResults).Sorted scoreDesc := by
  simp only [rankCandidates]
  refine ⟨List.length_take_le _ _, ?_, ?_⟩
  · intro x hx
    have h1 := List.mem_of_mem_take hx
    have h2 := List.of_mem_filter h1
    exact of_decide_eq_true h2
  · exact List.Pairwise.sublist (List.take_sublist _ _)
      (List.Pairwise.filter _ (List.sorted_insertionSort scoreDesc _))

theorem rankCandidates_nil (hn mn : String) (lt : List String) (city : String) :
    rankCandidates hn mn lt city [] = [] := by
  unfold rankCandidates filterByCity
  split <;> rfl

theorem semStep_ok (sem : String → Except String (Option (List Hit)))
    (st : List String × List MergedHit) (q : String) :
    ∃ st', semStep sem st q = .ok st' := by
  unfold semStep tryCatchE
  cases sem q with
  | error e => exact ⟨st, rfl⟩
  | ok o =>
    cases o with
    | none => exact ⟨st, rfl⟩
    | some hits => exact ⟨_, rfl⟩

theorem fuzzyStep_ok (fz : Except String (Option (List Hit)))
    (st : List String × List MergedHit) :
    ∃ st', fuzzyStep fz st = .ok st' := by
  unfold fuzzyStep tryCatchE
  cases fz with
  | error e => exact ⟨st, rfl⟩
  | ok o =>
    cases o with
    | none => exact ⟨st, rfl⟩
    | some hits => exact ⟨_, rfl⟩

theorem foldlM_semStep_ok (sem : String → Except String (Option (List Hit))) :
    ∀ (l : List String) (st : List String × List MergedHit),
      ∃ st', l.foldlM (semStep sem) st = .ok st' := by
  intro l
  induction l with
  | nil => intro st; exact ⟨st, rfl⟩
  | cons q qs ih =>
    intro st
    obtain ⟨st1, h1⟩ := semStep_ok sem st q
    obtain ⟨st2, h2⟩ := ih st1
    refine ⟨st2, ?_⟩
    rw [List.foldlM_cons, h1]
    simpa using h2

theorem confirmHospitalE_shape (n c : String)
    (sem : String → Except String (Option (List Hit)))
    (fz : Except String (Option (List Hit))) :
    ∃ ar : List MergedHit, confirmHospitalE n c sem fz =
      .ok (rankCandidates n (extractMainHospitalName n) (extractLocationTerms n) c ar) := by
  obtain ⟨st, hst⟩ := foldlM_semStep_ok sem
    [n, extractMainHospitalName n ++ " " ++ String.intercalate " " (extractLocationTerms n),
      if c.data = [] then n else n ++ " " ++ c] ([], [])
  obtain ⟨st2, hst2⟩ := fuzzyStep_ok fz st
  refine ⟨st2.2, ?_⟩
  simp only [confirmHospitalE]
  rw [hst]
  simp only [hst2, tryCatchE]

/-- C1: whatever the retrieval oracles return, `confirmHospital` returns at
most 3 elements, every returned element has `totalScore ≥ 0.25`, and the
returned list is sorted in descending order of `totalScore`
(`totalSimilarity` is `totalScore` by construction). -/
theorem claim_C1_top3 (n c : String)
    (sem : String → Except String (Option (List Hit)))
    (fz : Except String (Option (List Hit))) (l : List ScoredHit)
    (h : confirmHospitalE n c sem fz = .ok l) :
    l.length ≤ 3 ∧ (∀ x ∈ l, (1/4 : ℚ) ≤ x.totalSimilarity) ∧ l.Sorted scoreDesc := by
  obtain ⟨ar, har⟩ := confirmHospitalE_shape n c sem fz
  rw [h] at har
  obtain rfl : l = rankCandidates n (extractMainHospitalName n)
      (extractLocationTerms n) c ar := by
    exact (Except.ok.injEq _ _).mp har
  exact rankCandidates_props _ _ _ _ _

/-- The retrieval oracle that always returns a result-less response. -/
def demoSemEmpty : String → Except String (Option (List Hit)) := fun _ => .ok none

/-- Witness for C1 with a concrete (empty) retrieval outcome. -/
theorem claim_C1_witness :
    ([] : List ScoredHit).length ≤ 3 ∧
    (∀ x ∈ ([] : List ScoredHit), (1/4 : ℚ) ≤ x.totalSimilarity) ∧
    ([] : List ScoredHit).Sorted scoreDesc :=
  claim_C1_top3 "Apollo" "" demoSemEmpty (.ok none) [] (by rfl)

theorem semStep_dropFailure (sem : String → Except String (Option (List Hit)))
    (st : List String × List MergedHit) (q : String) :
    semStep sem st q = semStep (fun q' => dropFailure (sem q')) st q := by
  unfold semStep dropFailure tryCatchE
  cases h : sem q with
  | error e => simp [h]
  | ok o => cases o <;> simp [h]

theorem fuzzyStep_dropFailure (fz : Except String (Option (List Hit)))
    (st : List String × List MergedHit) :
    fuzzyStep fz st = fuzzyStep (dropFailure fz) st := by
  unfold fuzzyStep dropFailure tryCatchE
  cases h : fz with
  | error e => simp [h]
  | ok o => cases o <;> simp [h]

theorem semStep_of_error (sem : String → Except String (Option (List Hit)))
    (st : List String × List MergedHit) (q : String) (e : String)
    (he : sem q = .error e) : semStep sem st q = .ok st := by
  unfold semStep tryCatchE
  rw [he]

theorem foldlM_semStep_all_error (sem : String → Except String (Option (List Hit)))
    (hall : ∀ q, ∃ e, sem q = .error e) :
    ∀ (l : List String) (st : List String × List MergedHit),
      l.foldlM (semStep sem) st = .ok st := by
  intro l
  induction l with
  | nil => intro st; rfl
  | cons q qs ih =>
    intro st
    obtain ⟨e, he⟩ := hall q
    rw [List.foldlM_cons, semStep_of_error sem st q e he]
    simpa using ih st

/-- C8: `confirmHospital` never propagates an exception: it always returns
`Except.ok`; a failing retrieval source is equivalent to a source that
returns nothing (the other sources are still processed); and when every
source fails the result is the empty list. -/
theorem claim_C8_error_recovery (n c : String)
    (sem : String → Except String (Option (List Hit)))
    (fz : Except String (Option (List Hit))) :
    (∃ l, confirmHospitalE n c sem fz = .ok l) ∧
    confirmHospitalE n c sem fz =
      confirmHospitalE n c (fun q => dropFailure (sem q)) (dropFailure fz) ∧
    ((∀ q, ∃ e, sem q = .error e) → (∃ e, fz = .error e) →
      confirmHospitalE n c sem fz = .ok []) := by
  refine ⟨?_, ?_, ?_⟩
  · obtain ⟨ar, har⟩ := confirmHospitalE_shape n c sem fz
    exact ⟨_, har⟩
  · have hsem : semStep sem = semStep (fun q' => dropFailure (sem q')) :=
      funext fun st => funext fun q => semStep_dropFailure sem st q
    have hfz : fuzzyStep fz = fuzzyStep (dropFailure fz) :=
      funext fun st => fuzzyStep_dropFailure fz st
    unfold confirmHospitalE
    rw [hsem, hfz]
  · intro hall hfz
    obtain ⟨e, he⟩ := hfz
    simp only [confirmHospitalE]
    rw [foldlM_semStep_all_error sem hall]
    have hf : fuzzyStep fz ([], []) = .ok (([], []) : List String × List MergedHit) := by
      unfold fuzzyStep tryCatchE
      rw [he]
    simp only [hf, tryCatchE, rankCandidates_nil]

/-- Witness for C8: with every retrieval source throwing, `confirmHospital`
returns the empty list instead of an error. -/
theorem claim_C8_witness :
    confirmHospitalE "Apollo" "" (fun _ => .error "boom") (.error "boom") = .ok [] :=
  (claim_C8_error_recovery "Apollo" "" (fun _ => .error "boom") (.error "boom")).2.2
    (fun _ => ⟨"boom", rfl⟩) ⟨"boom", rfl⟩

/-! ### C7: deduplication of the merged candidate set -/

theorem mergeBatch_inv (src : String) (sq : Option String) :
    ∀ (hits processed : List Hit) (st : List String × List MergedHit),
      (∀ k, k ∈ st.1 ↔ ∃ y ∈ st.2, tripleKey y.payload = k) →
      st.2.Pairwise (fun a b => tripleKey a.payload ≠ tripleKey b.payload) →
      (∀ y ∈ st.2, processed.find? (fun z => tripleKey z.payload == tripleKey y.payload)
        = some { payload := y.payload, score := y.score }) →
      (∀ z ∈ processed, tripleKey z.payload ∈ st.1) →
      ((∀ k, k ∈ (mergeBatch st hits src sq).1 ↔
          ∃ y ∈ (mergeBatch st hits src sq).2, tripleKey y.payload = k) ∧
       (mergeBatch st hits src sq).2.Pairwise
          (fun a b => tripleKey a.payload ≠ tripleKey b.payload) ∧
       (∀ y ∈ (mergeBatch st hits src sq).2, (processed ++ hits).find?
          (fun z => tripleKey z.payload == tripleKey y.payload)
          = some { payload := y.payload, score := y.score }) ∧
       (∀ z ∈ processed ++ hits, tripleKey z.payload ∈ (mergeBatch st hits src sq).1)) := by
  intro hits
  induction hits with
  | nil =>
    intro processed st h1 h2 h3 h4
    simp only [mergeBatch, List.append_nil]
    exact ⟨h1, h2, h3, h4⟩
  | cons h rest ih =>
    intro processed st h1 h2 h3 h4
    by_cases hc : st.1.contains (tripleKey h.payload) = true
    · have hmem : tripleKey h.payload ∈ st.1 := List.elem_iff.mp hc
      have hstep : mergeBatch st (h :: rest) src sq = mergeBatch st rest src sq := by
        simp only [mergeBatch]
        rw [if_pos hc]
      rw [hstep, show processed ++ h :: rest = (processed ++ [h]) ++ rest by simp]
      apply ih (processed ++ [h]) st h1 h2
      · intro y hy
        rw [List.find?_append, h3 y hy]
        rfl
      · intro z hz
        rcases List.mem_append.mp hz with hz | hz
        · exact h4 z hz
        · rw [List.mem_singleton.mp hz]
          exact hmem
    · have hmem : tripleKey h.payload ∉ st.1 := fun hm => hc (List.elem_iff.mpr hm)
      have hstep : mergeBatch st (h :: rest) src sq =
          mergeBatch (tripleKey h.payload :: st.1,
            st.2 ++ [{ payload := h.payload, score := h.score,
                       source := src, searchQuery := sq }]) rest src sq := by
        simp only [mergeBatch]
        rw [if_neg hc]
      rw [hstep, show processed ++ h :: rest = (processed ++ [h]) ++ rest by simp]
      apply ih (processed ++ [h])
      · intro k
        constructor
        · intro hk
          rcases List.mem_cons.mp hk with rfl | hk
          · exact ⟨{ payload := h.payload, score := h.score,
                     source := src, searchQuery := sq },
              List.mem_append.mpr (Or.inr (List.mem_singleton.mpr rfl)), rfl⟩
          · obtain ⟨y, hy, hky⟩ := (h1 k).mp hk
            exact ⟨y, by simp [hy], hky⟩
        · rintro ⟨y, hy, hky⟩
          rcases List.mem_append.mp hy with hy | hy
          · exact List.mem_cons.mpr (Or.inr ((h1 k).mpr ⟨y, hy, hky⟩))
          · rw [List.mem_singleton.mp hy] at hky
            exact List.mem_cons.mpr (Or.inl hky.symm)
      · rw [List.pairwise_append]
        refine ⟨h2, List.pairwise_singleton _ _, ?_⟩
        intro a ha b hb
        rw [List.mem_singleton.mp hb]
        exact fun hkey => hmem ((h1 _).mpr ⟨a, ha, hkey⟩)
      · intro y hy
        rcases List.mem_append.mp hy with hy | hy
        · rw [List.find?_append, h3 y hy]
          rfl
        · rw [List.mem_singleton.mp hy]
          have hnone : processed.find?
              (fun z => tripleKey z.payload == tripleKey h.payload) = none := by
            rw [List.find?_eq_none]
            intro x hx hbeq
            have heq : tripleKey x.payload = tripleKey h.payload := eq_of_beq hbeq
            exact hmem (heq ▸ h4 x hx)
          rw [List.find?_append, hnone]
          simp [List.find?]
      · intro z hz
        rcases List.mem_append.mp hz with hz | hz
        · exact List.mem_cons.mpr (Or.inr (h4 z hz))
        · rw [List.mem_singleton.mp hz]
          exact List.mem_cons.mpr (Or.inl rfl)

theorem foldBatches_inv :
    ∀ (batches : List (String × List Hit)) (processed : List Hit)
      (st : List String × List MergedHit),
      (∀ k, k ∈ st.1 ↔ ∃ y ∈ st.2, tripleKey y.payload = k) →
      st.2.Pairwise (fun a b => tripleKey a.payload ≠ tripleKey b.payload) →
      (∀ y ∈ st.2, processed.find? (fun z => tripleKey z.payload == tripleKey y.payload)
        = some { payload := y.payload, score := y.score }) →
      (∀ z ∈ processed, tripleKey z.payload ∈ st.1) →
      (let st' := batches.foldl (fun st b => mergeBatch st b.2 "semantic" (some b.1)) st
       let pr' := processed ++ (batches.map Prod.snd).flatten
       (∀ k, k ∈ st'.1 ↔ ∃ y ∈ st'.2, tripleKey y.payload = k) ∧
       st'.2.Pairwise (fun a b => tripleKey a.payload ≠ tripleKey b.payload) ∧
       (∀ y ∈ st'.2, pr'.find? (fun z => tripleKey z.payload == tripleKey y.payload)
         = some { payload := y.payload, score := y.score }) ∧
       (∀ z ∈ pr', tripleKey z.payload ∈ st'.1)) := by
  intro batches
  induction batches with
  | nil =>
    intro processed st h1 h2 h3 h4
    simpa using ⟨h1, h2, h3, h4⟩
  | cons b bs ih =>
    intro processed st h1 h2 h3 h4
    obtain ⟨g1, g2, g3, g4⟩ := mergeBatch_inv "semantic" (some b.1) b.2 processed st h1 h2 h3 h4
    have := ih (processed ++ b.2) (mergeBatch st b.2 "semantic" (some b.1)) g1 g2 g3 g4
    simpa [List.append_assoc] using this

/-- C7: for every sequence of semantic result batches (one per query
variant) and every fuzzy result list, the merged candidate set of
`confirmHospital` contains no two entries whose payloads have identical
`(name, city, address)`; the first occurrence of a key in the processing
order wins (each merged entry is the first hit with its key) and every hit
key is represented, later duplicates being dropped. -/
theorem claim_C7_merge_dedup (semBatches : List (String × List Hit)) (fuzzy : List Hit) :
    (mergeAll semBatches fuzzy).Pairwise (fun a b =>
      ¬(a.payload.name = b.payload.name ∧ a.payload.city = b.payload.city ∧
        a.payload.address = b.payload.address)) ∧
    (∀ y ∈ mergeAll semBatches fuzzy,
      ((semBatches.map Prod.snd).flatten ++ fuzzy).find?
        (fun z => tripleKey z.payload == tripleKey y.payload)
        = some { payload := y.payload, score := y.score }) ∧
    (∀ z ∈ (semBatches.map Prod.snd).flatten ++ fuzzy,
      ∃ y ∈ mergeAll semBatches fuzzy, tripleKey y.payload = tripleKey z.payload) := by
  have h0 := foldBatches_inv semBatches [] ([], [])
    (by simp) (by simp) (by simp) (by simp)
  simp only [List.nil_append] at h0
  obtain ⟨g1, g2, g3, g4⟩ := h0
  obtain ⟨f1, f2, f3, f4⟩ := mergeBatch_inv "fuzzy" none fuzzy
    ((semBatches.map Prod.snd).flatten)
    (semBatches.foldl (fun st b => mergeBatch st b.2 "semantic" (some b.1)) ([], []))
    g1 g2 g3 g4
  refine ⟨?_, ?_, ?_⟩
  · exact f2.imp (fun hne htrip => hne (by
      simp only [tripleKey, htrip.1, htrip.2.1, htrip.2.2]))
  · exact f3
  · intro z hz
    exact (f1 (tripleKey z.payload)).mp (f4 z hz)

/-- A concrete raw hit used by witnesses. -/
def demoHit : Hit where
  payload := { name := "Apollo", address := "Delhi Road", city := "Delhi" }
  score := 1

/-- Witness for C7 at a concrete batch list containing a duplicate. -/
theorem claim_C7_witness :
    [demoHit, demoHit].find?
      (fun z => tripleKey z.payload ==
        tripleKey { name := "Apollo", address := "Delhi Road", city := "Delhi" })
      = some { payload := { name := "Apollo", address := "Delhi Road", city := "Delhi" },
               score := 1 } := by
  have h := (claim_C7_merge_dedup [("q", [demoHit, demoHit])] []).2.1
  have hm : ({ payload := { name := "Apollo", address := "Delhi Road", city := "Delhi" },
               score := 1, source := "semantic",
               searchQuery := some "q" } : MergedHit)
      ∈ mergeAll [("q", [demoHit, demoHit])] [] := by
    decide
  simpa using h _ hm

/-! ### C9: the search (non-confirmation) path -/

theorem dedupByKey_sublist : ∀ (seen : List String) (l : List Hit),
    (dedupByKey seen l).Sublist l := by
  intro seen l
  induction l generalizing seen with
  | nil => simp [dedupByKey]
  | cons h rest ih =>
    simp only [dedupByKey]
    split
    · exact (ih seen).cons h
    · exact (ih _).cons₂ h

theorem scores_sorted_of_hits {l : List Hit}
    (h : l.Pairwise (fun a b => b.score ≤ a.score)) (q : SearchItem → Bool) :
    (((l.map toSearchItem).filter q).map SearchItem.score).Sorted
      (fun a b : ℚ => b ≤ a) := by
  have h1 : (l.map toSearchItem).Pairwise (fun a b => b.score ≤ a.score) :=
    List.pairwise_map.mpr (h.imp (fun hab => hab))
  have h2 := List.Pairwise.filter q h1
  exact List.pairwise_map.mpr (h2.imp (fun hab => hab))

/-- The hit with the higher index-similarity score, matching `Mumbai` only
through its address/partial city. -/
def mumbaiPartialHit : Hit where
  payload := { name := "Alpha", address := "", city := "Navi Mumbai" }
  score := 9/10

/-- The hit with the lower score whose stored city is exactly `Mumbai`. -/
def mumbaiExactHit : Hit where
  payload := { name := "Beta", address := "", city := "Mumbai" }
  score := 1/2

/-- Counterexample to C9: the index returns the two hits in descending score
order, but `hybridSearch` reorders exact-city matches before partial ones,
so the search path returns scores `[0.5, 0.9]` — not descending. -/
theorem claim_C9_cex :
    ([mumbaiPartialHit, mumbaiExactHit].map Hit.score).Sorted (fun a b : ℚ => b ≤ a) ∧
    (searchHospitalsCity [mumbaiPartialHit, mumbaiExactHit] "Mumbai" 2).map
      SearchItem.score = [1/2, 9/10] ∧
    ¬ ([1/2, 9/10] : List ℚ).Sorted (fun a b : ℚ => b ≤ a) := by
  refine ⟨?_, ?_, ?_⟩
  · simp [List.Sorted, mumbaiPartialHit, mumbaiExactHit]
    norm_num
  · simp +decide [searchHospitalsCity, hybridPost, dedupByKey, hybridKey, tripleKey,
      toSearchItem, lowerChars, toLowerChar, ucLcPairs, containsList, startsList,
      trimChars, isWs, mumbaiPartialHit, mumbaiExactHit]
  · simp [List.Sorted]
    norm_num

theorem hybridPost_some (raw : List Hit) (topK : Nat) (cf : String) :
    hybridPost raw topK (some cf) =
      ((dedupByKey [] raw).filter
          (fun r => lowerChars r.payload.city.data == lowerChars cf.data) ++
        (dedupByKey [] raw).filter (fun r =>
          !(lowerChars r.payload.city.data == lowerChars cf.data) &&
          (containsList (lowerChars r.payload.city.data) (lowerChars cf.data) ||
            containsList (lowerChars r.payload.address.data)
              (lowerChars cf.data)))).take topK := rfl

/-- C9 (amended): with a given city and requested limit, the search path
returns at most `limit` items and drops every hit missing a name; the
returned scores form two internally descending blocks — exact-city matches
first, then partial matches — rather than one globally descending list; in
particular, when every returned hit's stored city equals the queried city
(as in the 5-Mumbai-hospitals scenario), the whole returned list is in
descending score order. -/
theorem claim_C9_search_path (raw : List Hit) (city : String) (limit : Nat)
    (hsorted : (raw.map Hit.score).Sorted (fun a b : ℚ => b ≤ a)) :
    (searchHospitalsCity raw city limit).length ≤ limit ∧
    (∀ it ∈ searchHospitalsCity raw city limit, it.name ≠ "Unknown") ∧
    (∃ es ps, (searchHospitalsCity raw city limit).map SearchItem.score = es ++ ps ∧
      es.Sorted (fun a b : ℚ => b ≤ a) ∧ ps.Sorted (fun a b : ℚ => b ≤ a)) ∧
    ((∀ r ∈ raw, lowerChars r.payload.city.data = lowerChars city.data) →
      ((searchHospitalsCity raw city limit).map SearchItem.score).Sorted
        (fun a b : ℚ => b ≤ a)) := by
  have hraw : raw.Pairwise (fun a b => b.score ≤ a.score) := List.pairwise_map.mp hsorted
  have hsub : (dedupByKey [] raw).Sublist raw := dedupByKey_sublist [] raw
  have huniqP : (dedupByKey [] raw).Pairwise (fun a b => b.score ≤ a.score) :=
    List.Pairwise.sublist hsub hraw
  have hexP := List.Pairwise.filter
    (fun r => lowerChars r.payload.city.data == lowerChars city.data) huniqP
  have hpaP := List.Pairwise.filter (fun r =>
    !(lowerChars r.payload.city.data == lowerChars city.data) &&
    (containsList (lowerChars r.payload.city.data) (lowerChars city.data) ||
      containsList (lowerChars r.payload.address.data) (lowerChars city.data))) huniqP
  simp only [searchHospitalsCity, hybridPost_some]
  refine ⟨?_, ?_, ?_, ?_⟩
  · exact le_trans (le_trans (List.length_filter_le _ _)
      (le_of_eq (List.length_map _ _))) (List.length_take_le _ _)
  · intro it hit
    have := List.of_mem_filter hit
    simpa using this
  · rw [List.take_append_eq_append_take, List.map_append, List.filter_append,
      List.map_append]
    refine ⟨_, _, rfl, ?_, ?_⟩
    · exact scores_sorted_of_hits (List.Pairwise.sublist (List.take_sublist _ _) hexP) _
    · exact scores_sorted_of_hits (List.Pairwise.sublist (List.take_sublist _ _) hpaP) _
  · intro hall
    have hpa_nil : (dedupByKey [] raw).filter (fun r =>
        !(lowerChars r.payload.city.data == lowerChars city.data) &&
        (containsList (lowerChars r.payload.city.data) (lowerChars city.data) ||
          containsList (lowerChars r.payload.address.data)
            (lowerChars city.data))) = [] := by
      rw [List.filter_eq_nil_iff]
      intro r hr
      have heq := hall r (hsub.subset hr)
      simp [heq]
    rw [hpa_nil, List.append_nil]
    exact scores_sorted_of_hits (List.Pairwise.sublist (List.take_sublist _ _) hexP) _

/-- Witness for C9 at a concrete one-element index response. -/
theorem claim_C9_witness :
    (searchHospitalsCity [mumbaiExactHit] "Mumbai" 2).length ≤ 2 ∧
    (∀ it ∈ searchHospitalsCity [mumbaiExactHit] "Mumbai" 2, it.name ≠ "Unknown") ∧
    (∃ es ps, (searchHospitalsCity [mumbaiExactHit] "Mumbai" 2).map SearchItem.score
        = es ++ ps ∧
      es.Sorted (fun a b : ℚ => b ≤ a) ∧ ps.Sorted (fun a b : ℚ => b ≤ a)) ∧
    ((∀ r ∈ [mumbaiExactHit], lowerChars r.payload.city.data =
        lowerChars ("Mumbai" : String).data) →
      ((searchHospitalsCity [mumbaiExactHit] "Mumbai" 2).map SearchItem.score).Sorted
        (fun a b : ℚ => b ≤ a)) :=
  claim_C9_search_path [mumbaiExactHit] "Mumbai" 2 (by simp [List.Sorted])

/-! ### C2: idempotence of `extractMainHospitalName` -/

/-- Counterexample to C2, two mechanisms. (1) On `"a hospital clinic"` the
`$`-anchored third replace strips only the final `clinic`; a second
application then strips `hospital` as well. (2) On
`"apollo sarjapur\nhospital"` the line terminator blocks the `.*$` tail of
the gazetteer rule (JS `.` does not match `\n`), so the first application
only strips the suffix `"\nhospital"` (`\s` does match `\n`), yielding
`"apollo sarjapur"`; the second application then strips `" sarjapur"` via
the gazetteer rule. In both cases applying the function twice differs from
once. -/
theorem claim_C2_cex :
    extractMainHospitalName "a hospital clinic" = "a hospital" ∧
    extractMainHospitalName (extractMainHospitalName "a hospital clinic") = "a" ∧
    extractMainHospitalName (extractMainHospitalName "a hospital clinic") ≠
      extractMainHospitalName "a hospital clinic" ∧
    extractMainHospitalName "apollo sarjapur\nhospital" = "apollo sarjapur" ∧
    extractMainHospitalName (extractMainHospitalName "apollo sarjapur\nhospital") =
      "apollo" :=
  ⟨by decide, by decide, by decide, by decide, by decide⟩

/-- `existsMatch p l`: some (non-empty) suffix of `l` matches `p` — exactly
when the corresponding `replace` would strip something. -/
def existsMatch (p : List Char → Bool) : List Char → Bool
  | [] => false
  | c :: rest => p (c :: rest) || existsMatch p rest

/-- A pattern matcher is monotone when a match survives extending the list
to the right by line-terminator-free text (true for the `.*$`-style
patterns, whose `.*$` tail requires the rest of the string to be free of
line terminators; not for `$`-anchored ones). -/
def MonoPat (p : List Char → Bool) : Prop :=
  ∀ u w, noNL w = true → p u = true → p (u ++ w) = true

theorem existsMatch_tail_false {p : List Char → Bool} {c : Char} {rest : List Char}
    (h : existsMatch p (c :: rest) = false) :
    p (c :: rest) = false ∧ existsMatch p rest = false := by
  simp only [existsMatch, Bool.or_eq_false_iff] at h
  exact h

theorem cutAtFirst_eq_self (p : List Char → Bool) :
    ∀ l, existsMatch p l = false → cutAtFirst p l = l := by
  intro l
  induction l with
  | nil => intro _; rfl
  | cons c rest ih =>
    intro h
    obtain ⟨h1, h2⟩ := existsMatch_tail_false h
    simp only [cutAtFirst, h1, Bool.false_eq_true, if_false, ih h2]

theorem cutAtFirst_pref (p : List Char → Bool) :
    ∀ l, ∃ w, l = cutAtFirst p l ++ w := by
  intro l
  induction l with
  | nil => exact ⟨[], rfl⟩
  | cons c rest ih =>
    simp only [cutAtFirst]
    split
    · exact ⟨c :: rest, rfl⟩
    · obtain ⟨w, hw⟩ := ih
      exact ⟨w, by rw [List.cons_append, ← hw]⟩

theorem startsList_mono (t : List Char) :
    ∀ u w, startsList t u = true → startsList t (u ++ w) = true := by
  induction t with
  | nil => intro u w _; rfl
  | cons a as ih =>
    intro u w h
    cases u with
    | nil => exact absurd h (by simp [startsList])
    | cons b bs =>
      simp only [startsList, Bool.and_eq_true] at h ⊢
      exact ⟨h.1, ih bs w h.2⟩

theorem startsList_length_le (t : List Char) :
    ∀ u, startsList t u = true → t.length ≤ u.length := by
  induction t with
  | nil => intro u _; simp
  | cons a as ih =>
    intro u h
    cases u with
    | nil => exact absurd h (by simp [startsList])
    | cons b bs =>
      simp only [startsList, Bool.and_eq_true] at h
      simpa using ih bs h.2

theorem noNL_append {a b : List Char} (h : noNL (a ++ b) = true) :
    noNL a = true ∧ noNL b = true := by
  simpa only [noNL, List.all_append, Bool.and_eq_true] using h

theorem noNL_append_of {a b : List Char} (ha : noNL a = true) (hb : noNL b = true) :
    noNL (a ++ b) = true := by
  simp only [noNL, List.all_append, Bool.and_eq_true]
  exact ⟨ha, hb⟩

theorem drop_append_of_le {α : Type} (n : ℕ) :
    ∀ (a b : List α), n ≤ a.length → (a ++ b).drop n = a.drop n ++ b := by
  induction n with
  | zero => intro a b _; rfl
  | succ m ih =>
    intro a b h
    cases a with
    | nil => exact absurd h (by simp)
    | cons c a' =>
      simp only [List.cons_append, List.drop_succ_cons]
      exact ih a' b (by simpa using h)

theorem startsWithAnyToEnd_mono (ts : List (List Char)) :
    MonoPat (startsWithAnyToEnd ts) := by
  intro u w hw h
  simp only [startsWithAnyToEnd, List.any_eq_true, Bool.and_eq_true] at h ⊢
  obtain ⟨t, ht, hst, htail⟩ := h
  refine ⟨t, ht, startsList_mono t u w hst, ?_⟩
  rw [drop_append_of_le t.length u w (startsList_length_le t u hst)]
  exact noNL_append_of htail hw

theorem wsPlusThen_mono {k : List Char → Bool} (hk : MonoPat k) :
    MonoPat (wsPlusThen k) := by
  intro u
  induction u with
  | nil => intro w hw h; exact absurd h (by simp [wsPlusThen])
  | cons c u' ih =>
    intro w hw h
    simp only [wsPlusThen, Bool.and_eq_true, Bool.or_eq_true] at h ⊢
    refine ⟨h.1, ?_⟩
    rcases h.2 with h2 | h2
    · exact Or.inl (hk u' w hw h2)
    · exact Or.inr (by simpa using ih w hw h2)

theorem wPlusThen_mono {k : List Char → Bool} (hk : MonoPat k) :
    MonoPat (wPlusThen k) := by
  intro u
  induction u with
  | nil => intro w hw h; exact absurd h (by simp [wPlusThen])
  | cons c u' ih =>
    intro w hw h
    simp only [wPlusThen, Bool.and_eq_true, Bool.or_eq_true] at h ⊢
    refine ⟨h.1, ?_⟩
    rcases h.2 with h2 | h2
    · exact Or.inl (hk u' w hw h2)
    · exact Or.inr (by simpa using ih w hw h2)

theorem gazCutPat_mono : MonoPat gazCutPat :=
  wsPlusThen_mono (startsWithAnyToEnd_mono gazetteerTerms)

theorem roadCutPat_mono : MonoPat roadCutPat :=
  wsPlusThen_mono (wPlusThen_mono (wsPlusThen_mono (startsWithAnyToEnd_mono roadWords)))

theorem noNL_cons {c : Char} {rest : List Char} (h : noNL (c :: rest) = true) :
    noNL rest = true := by
  simp only [noNL, List.all_cons, Bool.and_eq_true] at h
  exact h.2

theorem existsMatch_cutAtFirst (p : List Char → Bool) (hp : MonoPat p) :
    ∀ l, noNL l = true → existsMatch p (cutAtFirst p l) = false := by
  intro l
  induction l with
  | nil => intro _; rfl
  | cons c rest ih =>
    intro hnl
    simp only [cutAtFirst]
    split
    · rfl
    · rename_i hneg
      simp only [existsMatch, Bool.or_eq_false_iff]
      refine ⟨?_, ih (noNL_cons hnl)⟩
      cases hpc : p (c :: cutAtFirst p rest) with
      | false => rfl
      | true =>
        obtain ⟨w, hw⟩ := cutAtFirst_pref p rest
        have hnw : noNL w = true := (noNL_append (hw ▸ noNL_cons hnl)).2
        have hmono := hp (c :: cutAtFirst p rest) w hnw hpc
        rw [List.cons_append, ← hw] at hmono
        exact absurd hmono hneg

theorem existsMatch_of_append (p : List Char → Bool) (hp : MonoPat p) :
    ∀ (y w : List Char), noNL w = true →
      existsMatch p (y ++ w) = false → existsMatch p y = false := by
  intro y
  induction y with
  | nil => intro w _ _; rfl
  | cons c y' ih =>
    intro w hnw h
    rw [List.cons_append] at h
    obtain ⟨h1, h2⟩ := existsMatch_tail_false h
    simp only [existsMatch, Bool.or_eq_false_iff]
    refine ⟨?_, ih w hnw h2⟩
    cases hpc : p (c :: y') with
    | false => rfl
    | true =>
      have hmono := hp (c :: y') w hnw hpc
      rw [List.cons_append] at hmono
      rw [hmono] at h1
      exact absurd h1 (by simp)

theorem existsMatch_dropWhile (p : List Char → Bool) (q : Char → Bool) :
    ∀ l : List Char, existsMatch p l = false →
      existsMatch p (l.dropWhile q) = false := by
  intro l
  induction l with
  | nil => intro h; exact h
  | cons c rest ih =>
    intro h
    obtain ⟨h1, h2⟩ := existsMatch_tail_false h
    rw [List.dropWhile_cons]
    split
    · exact ih h2
    · simp only [existsMatch, Bool.or_eq_false_iff]
      exact ⟨h1, h2⟩

theorem dropTrailing_pref (x : List Char) :
    ∃ w, x = (x.reverse.dropWhile isWs).reverse ++ w := by
  refine ⟨(x.reverse.takeWhile isWs).reverse, ?_⟩
  rw [← List.reverse_append, List.takeWhile_append_dropWhile, List.reverse_reverse]

theorem noNL_of_mem {l₁ l₂ : List Char} (hsub : ∀ c ∈ l₁, c ∈ l₂)
    (h : noNL l₂ = true) : noNL l₁ = true := by
  simp only [noNL, List.all_eq_true] at h ⊢
  exact fun c hc => h c (hsub c hc)

theorem existsMatch_trim (p : List Char → Bool) (hp : MonoPat p) (l : List Char)
    (hnl : noNL l = true) (h : existsMatch p l = false) :
    existsMatch p (trimChars l) = false := by
  unfold trimChars
  have h1 : existsMatch p (l.dropWhile isWs) = false :=
    existsMatch_dropWhile p isWs l h
  have hnl1 : noNL (l.dropWhile isWs) = true :=
    noNL_of_mem (fun c hc => (List.dropWhile_sublist _).subset hc) hnl
  obtain ⟨w, hw⟩ := dropTrailing_pref (l.dropWhile isWs)
  have hnw : noNL w = true := (noNL_append (hw ▸ hnl1)).2
  exact existsMatch_of_append p hp _ w hnw (by rw [← hw]; exact h1)

theorem toLowerChar_fix (c : Char) : toLowerChar (toLowerChar c) = toLowerChar c := by
  have hall : ∀ q ∈ ucLcPairs, ucLcPairs.find? (fun r => r.1 == q.2) = none := by decide
  cases hf : ucLcPairs.find? (fun p => p.1 == c) with
  | none => simp [toLowerChar, hf]
  | some pr =>
    have hmem := List.mem_of_find?_eq_some hf
    simp [toLowerChar, hf, hall pr hmem]

theorem map_id_of_fixed {g : Char → Char} :
    ∀ l : List Char, (∀ c ∈ l, g c = c) → l.map g = l := by
  intro l
  induction l with
  | nil => intro _; rfl
  | cons c rest ih =>
    intro h
    simp only [List.map_cons, h c (List.mem_cons_self c rest),
      ih (fun d hd => h d (List.mem_cons_of_mem c hd))]

theorem lowerChars_fix_of_subset (t m : List Char)
    (hsub : ∀ c ∈ t, c ∈ lowerChars m) : lowerChars t = t := by
  apply map_id_of_fixed
  intro c hc
  obtain ⟨c', _, rfl⟩ := List.mem_map.mp (hsub c hc)
  exact toLowerChar_fix c'

theorem mem_of_mem_cutAtFirst (p : List Char → Bool) (l : List Char) {c : Char}
    (hc : c ∈ cutAtFirst p l) : c ∈ l := by
  obtain ⟨w, hw⟩ := cutAtFirst_pref p l
  rw [hw]
  exact List.mem_append_left w hc

theorem mem_of_mem_trimChars (l : List Char) {c : Char}
    (hc : c ∈ trimChars l) : c ∈ l := by
  unfold trimChars at hc
  rw [List.mem_reverse] at hc
  have h1 := (List.dropWhile_sublist _).subset hc
  rw [List.mem_reverse] at h1
  exact (List.dropWhile_sublist _).subset h1

theorem noNL_lowerChars (l : List Char) (h : noNL l = true) :
    noNL (lowerChars l) = true := by
  have hall : ∀ q ∈ ucLcPairs, isLineTerm q.2 = false := by decide
  simp only [noNL, lowerChars, List.all_eq_true] at h ⊢
  intro c hc
  obtain ⟨c', hc', rfl⟩ := List.mem_map.mp hc
  unfold toLowerChar
  cases hf : ucLcPairs.find? (fun p => p.1 == c') with
  | none => exact h c' hc'
  | some pr => simp [hall pr (List.mem_of_find?_eq_some hf)]

theorem noNL_cutAtFirst (p : List Char → Bool) (l : List Char)
    (h : noNL l = true) : noNL (cutAtFirst p l) = true := by
  obtain ⟨w, hw⟩ := cutAtFirst_pref p l
  exact (noNL_append (hw ▸ h)).1

theorem noNL_trimChars (l : List Char) (h : noNL l = true) :
    noNL (trimChars l) = true :=
  noNL_of_mem (fun _ hc => mem_of_mem_trimChars l hc) h

theorem dropWhile_head_false {q : Char → Bool} {c : Char} {x rest : List Char}
    (h : x.dropWhile q = c :: rest) : q c = false := by
  induction x with
  | nil => exact absurd h (by simp)
  | cons a x' ih =>
    rw [List.dropWhile_cons] at h
    split at h
    · exact ih h
    · cases hq : q c with
      | false => rfl
      | true =>
        rename_i hqa
        rw [List.cons_eq_cons] at h
        rw [h.1] at hqa
        simp [hq] at hqa

theorem dropWhile_idem (q : Char → Bool) (l : List Char) :
    (l.dropWhile q).dropWhile q = l.dropWhile q := by
  cases hd : l.dropWhile q with
  | nil => simp
  | cons c rest =>
    rw [List.dropWhile_cons_of_neg]
    simp [dropWhile_head_false hd]

theorem trim_idem (l : List Char) : trimChars (trimChars l) = trimChars l := by
  have ht : trimChars l = ((l.dropWhile isWs).reverse.dropWhile isWs).reverse := rfl
  have hrev : (trimChars l).reverse = (l.dropWhile isWs).reverse.dropWhile isWs := by
    rw [ht, List.reverse_reverse]
  have hBack : (trimChars l).reverse.dropWhile isWs = (trimChars l).reverse := by
    rw [hrev]
    exact dropWhile_idem isWs _
  have hFront : (trimChars l).dropWhile isWs = trimChars l := by
    cases hcase : trimChars l with
    | nil => simp
    | cons c rest =>
      obtain ⟨w, hw⟩ := dropTrailing_pref (l.dropWhile isWs)
      rw [← ht] at hw
      have hdw : l.dropWhile isWs = c :: (rest ++ w) := by
        rw [hw, hcase, List.cons_append]
      have hidem := dropWhile_idem isWs l
      rw [hdw] at hidem
      have hc : isWs c = false := dropWhile_head_false hidem
      rw [List.dropWhile_cons_of_neg (by simp [hc])]
  show ((((trimChars l).dropWhile isWs).reverse.dropWhile isWs).reverse) = trimChars l
  rw [hFront, hBack, List.reverse_reverse]

/-- C2 (amended): `extractMainHospitalName` is idempotent on every input
free of line terminators whose result has no further match of the
`$`-anchored suffix pattern `\s+(hospital|medical center|clinic)s?$` — the
only stripping rule that can fire again on a once-stripped name. (On such
inputs the gazetteer and road-word rules can never fire on the result, and
a second application differs from the first exactly by one more trailing
suffix strip. A line terminator in the input blocks the `.*$` tail of the
first two rules, so removing it in the first pass can expose a fresh
gazetteer or road-word match for the second pass.) -/
theorem claim_C2_conditional_idempotence (s : String)
    (hnl : noNL s.data = true)
    (h3 : existsMatch suffixCutPat (extractMainHospitalName s).data = false) :
    extractMainHospitalName (extractMainHospitalName s) = extractMainHospitalName s := by
  have hm : extractMainHospitalName s =
      ⟨trimChars (cutAtFirst suffixCutPat (cutAtFirst roadCutPat
        (cutAtFirst gazCutPat (lowerChars s.data))))⟩ := rfl
  set m0 := lowerChars s.data with hm0
  set m1 := cutAtFirst gazCutPat m0 with hm1
  set m2 := cutAtFirst roadCutPat m1 with hm2
  set m3 := cutAtFirst suffixCutPat m2 with hm3
  set t := trimChars m3 with htdef
  have hnl0 : noNL m0 = true := noNL_lowerChars s.data hnl
  have hnl1 : noNL m1 = true := noNL_cutAtFirst gazCutPat m0 hnl0
  have hnl2 : noNL m2 = true := noNL_cutAtFirst roadCutPat m1 hnl1
  have hnl3 : noNL m3 = true := noNL_cutAtFirst suffixCutPat m2 hnl2
  have hg1 : existsMatch gazCutPat m1 = false :=
    existsMatch_cutAtFirst _ gazCutPat_mono m0 hnl0
  have hg2 : existsMatch gazCutPat m2 = false := by
    obtain ⟨w, hw⟩ := cutAtFirst_pref roadCutPat m1
    have hnw : noNL w = true := (noNL_append (hw ▸ hnl1)).2
    exact existsMatch_of_append _ gazCutPat_mono m2 w hnw (by rw [hm2, ← hw]; exact hg1)
  have hg3 : existsMatch gazCutPat m3 = false := by
    obtain ⟨w, hw⟩ := cutAtFirst_pref suffixCutPat m2
    have hnw : noNL w = true := (noNL_append (hw ▸ hnl2)).2
    exact existsMatch_of_append _ gazCutPat_mono m3 w hnw (by rw [hm3, ← hw]; exact hg2)
  have hgt : existsMatch gazCutPat t = false :=
    existsMatch_trim _ gazCutPat_mono m3 hnl3 hg3
  have hr2 : existsMatch roadCutPat m2 = false :=
    existsMatch_cutAtFirst _ roadCutPat_mono m1 hnl1
  have hr3 : existsMatch roadCutPat m3 = false := by
    obtain ⟨w, hw⟩ := cutAtFirst_pref suffixCutPat m2
    have hnw : noNL w = true := (noNL_append (hw ▸ hnl2)).2
    exact existsMatch_of_append _ roadCutPat_mono m3 w hnw (by rw [hm3, ← hw]; exact hr2)
  have hrt : existsMatch roadCutPat t = false :=
    existsMatch_trim _ roadCutPat_mono m3 hnl3 hr3
  have hlow : lowerChars t = t := by
    apply lowerChars_fix_of_subset t s.data
    intro c hc
    have hc3 := mem_of_mem_trimChars m3 hc
    have hc2 := mem_of_mem_cutAtFirst suffixCutPat m2 hc3
    have hc1 := mem_of_mem_cutAtFirst roadCutPat m1 hc2
    exact mem_of_mem_cutAtFirst gazCutPat m0 hc1
  have h3' : existsMatch suffixCutPat t = false := h3
  have hsecond : extractMainHospitalName (extractMainHospitalName s) =
      ⟨trimChars (cutAtFirst suffixCutPat (cutAtFirst roadCutPat
        (cutAtFirst gazCutPat (lowerChars t))))⟩ := by
    rw [hm]
    rfl
  rw [hsecond, hlow, cutAtFirst_eq_self _ _ hgt, cutAtFirst_eq_self _ _ hrt,
    cutAtFirst_eq_self _ _ h3',
    show trimChars t = t from by rw [htdef]; exact trim_idem m3]
  exact hm.symm

/-- Witness for C2 at a line-terminator-free input whose stripped result
has no further strippable suffix. -/
theorem claim_C2_witness :
    noNL ("apollo sarjapur" : String).data = true ∧
    existsMatch suffixCutPat (extractMainHospitalName "apollo sarjapur").data = false ∧
    extractMainHospitalName (extractMainHospitalName "apollo sarjapur") =
      extractMainHospitalName "apollo sarjapur" :=
  ⟨by decide, by decide,
    claim_C2_conditional_idempotence "apollo sarjapur" (by decide) (by decide)⟩

end LoopAI
